import Mathlib

/-!
Shallow embedding of the lexical multi-agent orchestration system.

Each definition is translated from one source function of the repository:
  - src/src/utils/cache.js            (ResponseCache, TaskCache)
  - src/src/orchestrator/agent-registry.js (AgentRegistry)
  - src/src/cli/templates/prompts.js  (preparePrompt)
  - src/unnamed/part_012              (UniversalCLI)
  - src/src/executor/gemini-executor.js (GeminiExecutor close handler)
  - src/unnamed/part_011              (MultiAgentOrchestrator.executeParallel)
  - src/src/mcp-servers/universal-mcp-server.js (handleOrchestrateParallel)
  - src/src/workflow/workflow-engine.js (WorkflowEngine)

Wall-clock machinery (Date.now, timers) is modelled by explicit time
parameters where behaviour depends on it; awaited setTimeout delays are
instrumented into an explicit trace.  JavaScript Map objects are modelled
as association lists in insertion order, matching Map iteration order.
-/

namespace Lexical

/-! ## Response cache — src/src/utils/cache.js

A JavaScript Map is an insertion-ordered association list: `set` on a
present key updates it in place keeping its position, otherwise appends;
`delete` removes the entry; `keys().next().value` is the first key. -/

structure CacheEntry (V : Type) where
  value : V
  expires : Nat
  created : Nat
  hits : Nat
deriving Repr, DecidableEq

def mapSet {V : Type} (m : List (String × CacheEntry V)) (k : String)
    (e : CacheEntry V) : List (String × CacheEntry V) :=
  if m.any (fun p => p.1 == k) then
    m.map (fun p => if p.1 == k then (k, e) else p)
  else
    m ++ [(k, e)]

def mapDelete {V : Type} (m : List (String × CacheEntry V)) (k : String) :
    List (String × CacheEntry V) :=
  m.filter (fun p => p.1 != k)

def mapGet {V : Type} (m : List (String × CacheEntry V)) (k : String) :
    Option (CacheEntry V) :=
  (m.find? (fun p => p.1 == k)).map (·.2)

structure ResponseCache (V : Type) where
  cache : List (String × CacheEntry V)
  ttl : Nat
  maxSize : Nat
  hits : Nat
  misses : Nat
deriving Repr

/-- ResponseCache.set (cache.js lines 20-37): when the map already holds
at least maxSize entries, delete the first (oldest inserted) key, then
insert the new entry with a fresh hit counter and expiry now + ttl. -/
def ResponseCache.set {V : Type} (c : ResponseCache V) (now : Nat)
    (k : String) (v : V) : ResponseCache V :=
  let m :=
    if c.cache.length ≥ c.maxSize then
      match c.cache.head? with
      | some (firstKey, _) => mapDelete c.cache firstKey
      | none => c.cache
    else c.cache
  { c with cache := mapSet m k ⟨v, now + c.ttl, now, 0⟩ }

/-- ResponseCache.get (cache.js lines 39-62): miss on absent key; lazily
delete and miss on an expired entry; otherwise bump the hit counters and
return the value. -/
def ResponseCache.get {V : Type} (c : ResponseCache V) (now : Nat)
    (k : String) : Option V × ResponseCache V :=
  match mapGet c.cache k with
  | none => (none, { c with misses := c.misses + 1 })
  | some item =>
    if now > item.expires then
      (none, { c with cache := mapDelete c.cache k, misses := c.misses + 1 })
    else
      (some item.value,
       { c with cache := mapSet c.cache k { item with hits := item.hits + 1 },
                hits := c.hits + 1 })

def cacheKeys {V : Type} (c : ResponseCache V) : List String :=
  c.cache.map (·.1)

/-! ## Agent registry — src/src/orchestrator/agent-registry.js

Capability records such as `claude` / `gemini` configs hold numeric
per-role scores (planning/execution/review), an optional language list
and an optional context window.  JavaScript truthiness of an absent or
zero numeric field is modelled through Option and explicit zero tests. -/

structure Capabilities where
  scores : List (String × ℚ)
  languages : List String
  contextWindow : Option ℚ

/-- Dynamic field access capabilities[role]; an absent key reads as 0,
matching an undefined numeric field being falsy and never compared. -/
def Capabilities.roleScore (c : Capabilities) (role : String) : ℚ :=
  (c.scores.lookup role).getD 0

structure Requirements where
  role : Option String
  language : Option String
  contextSize : Option ℚ
  complexity : Option String

/-- AgentRegistry.calculateScore (agent-registry.js lines 35-67).
Absent requirements score a flat 1; otherwise each satisfied clause adds
its weight.  A zero capability score is falsy in the source, hence the
explicit zero test; likewise a zero contextSize requirement is falsy. -/
def calculateScore (caps : Capabilities) (reqs : Option Requirements) : ℚ :=
  match reqs with
  | none => 1
  | some r =>
    let roleTerm : ℚ :=
      match r.role with
      | some ro => if caps.roleScore ro ≠ 0 then caps.roleScore ro * 10 else 0
      | none => 0
    let langTerm : ℚ :=
      match r.language with
      | some l => if l ∈ caps.languages then 5 else 0
      | none => 0
    let ctxTerm : ℚ :=
      match r.contextSize, caps.contextWindow with
      | some cs, some w => if cs ≠ 0 ∧ w ≥ cs then 3 else 0
      | _, _ => 0
    let complexityTerm : ℚ :=
      match r.complexity with
      | some cx =>
        if cx = "high" ∧ caps.roleScore "planning" > 0.9 then 2
        else if cx = "low" ∧ caps.roleScore "execution" > 0.9 then 2
        else 0
      | none => 0
    roleTerm + langTerm + ctxTerm + complexityTerm

structure RegisteredAgent where
  name : String
  agent : String
  caps : Capabilities

/-- One iteration of the selection loop: keep the running best, replace
it when the score strictly exceeds the running highest (initially -1). -/
def selStep (reqs : Option Requirements) (acc : Option String × ℚ)
    (a : RegisteredAgent) : Option String × ℚ :=
  let s := calculateScore a.caps reqs
  if s > acc.2 then (some a.agent, s) else acc

/-- AgentRegistry.selectBestAgent (agent-registry.js lines 74-96):
empty registry yields null; otherwise scan in registration order keeping
the strictly-best agent; if none was ever kept, default to the first
registered agent. -/
def selectBestAgent (agents : List RegisteredAgent)
    (reqs : Option Requirements) : Option String :=
  match agents with
  | [] => none
  | a0 :: _ =>
    let p := agents.foldl (selStep reqs) (none, (-1 : ℚ))
    match p.1 with
    | some b => some b
    | none => some a0.agent

/-- Reference selection: the earliest agent whose score is maximal,
paired with that score.  Used to state what the source fold computes. -/
def bestOf (reqs : Option Requirements) :
    List RegisteredAgent → Option (String × ℚ)
  | [] => none
  | a :: rest =>
    match bestOf reqs rest with
    | none => some (a.agent, calculateScore a.caps reqs)
    | some (b, s) =>
      if calculateScore a.caps reqs ≥ s then
        some (a.agent, calculateScore a.caps reqs)
      else some (b, s)

/-! ## Prompt templates — src/src/cli/templates/prompts.js

preparePrompt(prompt, role, cliName) applies the role-and-agent template
when both lookups hit, else falls back to the raw prompt.  Note that the
gemini execute template is the identity, and any unrecognized role falls
back to the identity for every agent. -/

def preparePrompt (prompt role cliName : String) : String :=
  if role = "plan" then
    if cliName = "claude" then
      "Create a detailed execution plan for: " ++ prompt ++
        "\nProvide step-by-step tasks as JSON"
    else if cliName = "gemini" then
      prompt ++ "\nCreate a structured plan with clear steps"
    else prompt
  else if role = "execute" then
    if cliName = "claude" then
      "Write code for: " ++ prompt ++ "\nBe concise and efficient"
    else if cliName = "gemini" then prompt
    else prompt
  else if role = "review" then
    if cliName = "claude" then
      "Review and improve: " ++ prompt ++
        "\nFocus on quality and best practices"
    else if cliName = "gemini" then "Review this: " ++ prompt
    else prompt
  else prompt

/-! ## Task cache and UniversalCLI.execute — src/src/utils/cache.js
(TaskCache) and src/unnamed/part_012 (UniversalCLI)

TaskCache stores values of shape (task, result); getCachedResult scans
the map for an unexpired entry whose task.prompt equals the queried
prompt.  The md5 content key of setTask is abstracted by an injective
encoding (the prompt itself); the spec places key-hashing details beyond
the contract out of scope. -/

structure TaskV (V : Type) where
  taskPrompt : String
  result : V
deriving Repr, DecidableEq

def genKey (prompt : String) : String := prompt

/-- TaskCache.getCachedResult (cache.js lines 150-161): linear scan for
a matching, unexpired task entry; expired matches are skipped. -/
def getCachedResult {V : Type} (c : ResponseCache (TaskV V)) (now : Nat)
    (prompt : String) : Option V :=
  (c.cache.find? (fun p =>
      p.2.value.taskPrompt == prompt && decide (now < p.2.expires))).map
    (·.2.value.result)

/-- TaskCache.setTask (cache.js lines 136-143). -/
def setTask {V : Type} (c : ResponseCache (TaskV V)) (now : Nat)
    (prompt : String) (result : V) : ResponseCache (TaskV V) :=
  c.set now (genKey prompt) ⟨prompt, result⟩

/-- The spawn-and-store path of UniversalCLI.execute (part_012 lines
33-55, the code after the cache guard): run the process — abstracted by
the spawn oracle — cache a successful result under the final prompt,
and propagate a failure; metrics recording is out of scope.  The Bool
flags that a process was spawned. -/
def UniversalCLI.spawnPath {V : Type} (spawn : String → Except String V)
    (c : ResponseCache (TaskV V)) (now : Nat) (finalPrompt : String) :
    Except String V × Bool × ResponseCache (TaskV V) :=
  match spawn finalPrompt with
  | .ok r => (.ok r, true, setTask c now finalPrompt r)
  | .error e => (.error e, true, c)

/-- UniversalCLI.execute (part_012 lines 23-56): template the prompt
for (role, agent), consult the shared cache on the final prompt, and
return early on a hit.  The guard is the JS truthiness test
if (cached) at line 31: a hit whose cached value is falsy — truthiness
of the opaque value type is supplied as a parameter — falls through to
the spawn path exactly like a miss (undefined is falsy too). -/
def UniversalCLI.execute {V : Type} (truthy : V → Bool)
    (spawn : String → Except String V)
    (c : ResponseCache (TaskV V)) (now : Nat)
    (name prompt role : String) :
    Except String V × Bool × ResponseCache (TaskV V) :=
  let finalPrompt := preparePrompt prompt role name
  match getCachedResult c now finalPrompt with
  | some cached =>
    if truthy cached then (.ok cached, false, c)
    else UniversalCLI.spawnPath spawn c now finalPrompt
  | none => UniversalCLI.spawnPath spawn c now finalPrompt

/-- JavaScript truthiness of a string result: falsy exactly when
empty. -/
def jsStrTruthy : String → Bool := fun s => s != ""

/-! ## Process adapter exit handling — src/unnamed/part_012
(UniversalCLI.collectOutput) and src/src/executor/gemini-executor.js
(executeGeminiCommand close handler)

Both close handlers are pure in (exit code, accumulated stdout, stderr)
once the process has exited before the timeout fired (the close handler
clears the timer). -/

/-- Whitespace as stripped by String.prototype.trim, restricted to the
common whitespace characters. -/
def isJsSpace (c : Char) : Bool :=
  c = ' ' || c = '\t' || c = '\n' || c = '\r'

/-- An executable model of String.prototype.trim: strip leading and
trailing whitespace. -/
def jsTrim (s : String) : String :=
  String.mk (((s.toList.dropWhile isJsSpace).reverse.dropWhile
    isJsSpace).reverse)

/-- UniversalCLI.collectOutput close handler (part_012 lines 171-178):
zero exit resolves the trimmed stdout; any non-zero exit rejects,
regardless of accumulated output. -/
def collectOutputOnClose (code : Int) (stdout stderr : String) :
    Except String String :=
  if code = 0 then .ok (jsTrim stdout)
  else .error ("Process exited with code " ++ toString code ++ ": " ++ stderr)

/-- GeminiExecutor close handler (gemini-executor.js lines 120-134):
zero exit, or any non-empty trimmed output, resolves the trimmed output;
only an empty-output non-zero exit rejects. -/
def geminiOnClose (code : Int) (output errorOutput : String) :
    Except String String :=
  if code = 0 ∨ jsTrim output ≠ "" then .ok (jsTrim output)
  else .error ("Gemini failed: " ++ errorOutput)

/-! ## Parallel dispatch — src/unnamed/part_011
(MultiAgentOrchestrator.executeParallel) and
src/src/mcp-servers/universal-mcp-server.js (handleOrchestrateParallel) -/

/-- A settled per-agent outcome: a resolved value, or the tagged object
built by the per-promise catch. -/
inductive POutcome (V : Type) where
  | ok (value : V)
  | err (error : String) (agent : String)
deriving Repr, DecidableEq

structure PAgent (V : Type) where
  name : String
deriving Repr, DecidableEq

/-- One parallel branch: agent.execute(prompt).catch(tagging handler). -/
def invokeAgent {V : Type} (exec : PAgent V → String → Except String V)
    (a : PAgent V) (prompt : String) : POutcome V :=
  match exec a prompt with
  | .ok v => .ok v
  | .error e => .err e a.name

/-- MultiAgentOrchestrator.executeParallel (part_011 lines 48-64): map
the requested names through the registry dropping unknown ones, throw if
none remain, else run every branch with its failure caught and tagged,
preserving the requested order. -/
def executeParallel {V : Type} (lookup : String → Option (PAgent V))
    (exec : PAgent V → String → Except String V)
    (names : List String) (prompt : String) :
    Except String (List (POutcome V)) :=
  let agents := names.filterMap lookup
  if agents.isEmpty then
    .error "No valid agents found for parallel execution."
  else
    .ok (agents.map (fun a => invokeAgent exec a prompt))

/-- JavaScript truthiness of the error field of a settled result: ok
entries carry no error field (falsy), err entries are falsy only when
the message is the empty string. -/
def POutcome.errTruthy {V : Type} : POutcome V → Bool
  | .ok _ => false
  | .err e _ => e ≠ ""

inductive AggResult (V : Type) where
  | single (r : Option (POutcome V))
  | many (rs : List (POutcome V))
deriving Repr, DecidableEq

/-- Aggregation in handleOrchestrateParallel (universal-mcp-server.js
lines 368-378): race takes the first settled result without a truthy
error field, defaulting to the first result; vote is a placeholder that
takes the first result; any other mode returns the whole array.  The
source additionally falls back to results[0] when the found value is
itself falsy (an empty string result); value truthiness is not modelled
on the opaque result type. -/
def aggregateResults {V : Type} (mode : String)
    (results : List (POutcome V)) : AggResult V :=
  if mode = "race" then
    .single ((results.find? (fun r => !r.errTruthy)).orElse (fun _ => results.head?))
  else if mode = "vote" then
    .single results.head?
  else
    .many results

/-- handleOrchestrateParallel (universal-mcp-server.js lines 362-395):
run the parallel dispatch, then aggregate according to the mode; a
thrown dispatch error is reported as a failure payload. -/
def handleOrchestrateParallel {V : Type}
    (lookup : String → Option (PAgent V))
    (exec : PAgent V → String → Except String V)
    (prompt : String) (names : List String) (mode : String) :
    Except String (AggResult V) :=
  match executeParallel lookup exec names prompt with
  | .error e => .error e
  | .ok results => .ok (aggregateResults mode results)

/-- The most frequent settled result under equality, ties broken by the
earliest position in race order.  This follows the wording of the spec
for the vote mode and is compared against the implementation. -/
def specVote {V : Type} [DecidableEq V] (results : List (POutcome V)) :
    Option (POutcome V) :=
  results.find? (fun r => results.all (fun r2 => results.count r2 ≤ results.count r))

/-! ## Workflow engine — src/src/workflow/workflow-engine.js

The orchestrator behind executeParallel / executeAuto / executeWithAgent
is opaque to the engine; it is modelled as a dispatch oracle indexed by
the number of dispatch calls made so far, so that a single run can
observe an arbitrary sequence of per-call results.  Awaited retry delays
are recorded in the trace.  Object spread onto the context and the
wrapping of an agent-less result are supplied as environment functions
over the opaque value type. -/

inductive AgentTarget where
  | noAgent
  | auto
  | named (name : String)
  | team (names : List String)
deriving Repr, DecidableEq

inductive DispatchKind where
  | parallelCall (names : List String) (role mode : Option String)
  | autoCall (role : Option String)
  | agentCall (target : AgentTarget) (role : Option String) (timeout : Option Nat)
deriving Repr, DecidableEq

structure Env (V : Type) where
  dispatch : Nat → DispatchKind → V → Except String V
  merge : V → V → V
  wrapOutput : V → V

structure Retry where
  attempts : Nat
  delay : Option Nat := none
  backoffFactor : Option Nat := none
deriving Repr, DecidableEq

structure Step (V : Type) where
  name : String
  agent : AgentTarget := .noAgent
  parallel : Bool := false
  role : Option String := none
  mode : Option String := none
  timeout : Option Nat := none
  condition : Option (V → Bool) := none
  transform : Option (V → V → V) := none
  validate : Option (V → Bool) := none
  retry : Option Retry := none
  stopOnError : Bool := false
  loopTo : Option String := none
  onSuccess : Option String := none
  onFailure : Option String := none

structure Workflow (V : Type) where
  steps : List (Step V)
  maxIterations : Option Nat := none

inductive StepStatus where
  | success
  | failed
deriving Repr, DecidableEq

structure StepResult (V : Type) where
  name : String
  status : StepStatus
  agent : AgentTarget := .noAgent
  role : Option String := none
  output : Option V := none
  error : Option String := none
deriving Repr

structure Trace where
  calls : Nat := 0
  delays : List Nat := []
deriving Repr, DecidableEq

/-- The JavaScript numeric-or-default idiom value || d, under which both
absence and zero fall back to the default. -/
def jsOr (o : Option Nat) (d : Nat) : Nat :=
  match o with
  | some x => if x = 0 then d else x
  | none => d

/-- A maxIterations setting is honored only when present and non-zero
(a zero setting is falsy at both sites that read it). -/
def maxIterTruthy (o : Option Nat) : Option Nat :=
  match o with
  | some n => if n = 0 then none else some n
  | none => none

def mkSuccess {V : Type} (step : Step V) (result : V) : StepResult V :=
  { name := step.name, status := .success, agent := step.agent,
    role := step.role, output := some result, error := none }

/-- The failed StepResult object of the source carries only name,
status, error and duration; the absent agent and role fields are the
defaults here. -/
def mkFailed {V : Type} (step : Step V) (msg : String) : StepResult V :=
  { name := step.name, status := .failed, agent := .noAgent,
    role := none, output := none, error := some msg }

/-- The try block of WorkflowEngine.executeStep (workflow-engine.js
lines 99-132): transform the input, dispatch following the source
if-chain — a parallel team, the auto selector, a truthy agent, or no
agent at all (in which case the wrapped transform output stands in for a
dispatch result) — then apply the validator, a rejection becoming the
thrown validation error.  Every failure surfaces here as the caught
error message. -/
def stepBody {V : Type} (env : Env V) (step : Step V) (input ctx : V)
    (tr : Trace) : Except String V × Trace :=
  let ti := match step.transform with
            | some f => f input ctx
            | none => input
  let dispatched : Except String V × Trace :=
    match step.agent with
    | .team names =>
      if step.parallel then
        (env.dispatch tr.calls (.parallelCall names step.role step.mode) ti,
         { tr with calls := tr.calls + 1 })
      else
        (env.dispatch tr.calls (.agentCall (.team names) step.role step.timeout) ti,
         { tr with calls := tr.calls + 1 })
    | .auto =>
      (env.dispatch tr.calls (.autoCall step.role) ti,
       { tr with calls := tr.calls + 1 })
    | .named n =>
      (env.dispatch tr.calls (.agentCall (.named n) step.role step.timeout) ti,
       { tr with calls := tr.calls + 1 })
    | .noAgent => (.ok (env.wrapOutput ti), tr)
  match dispatched with
  | (.error e, tr1) => (.error e, tr1)
  | (.ok result, tr1) =>
    match step.validate with
    | some vfn =>
      if vfn result then (.ok result, tr1)
      else (.error "Step validation failed", tr1)
    | none => (.ok result, tr1)

/-- The behavior of WorkflowEngine.executeStep on a step carrying no
retry policy: the try-block result, with a caught error recorded
directly as the failed StepResult (workflow-engine.js lines 143-155 with
the retry branch closed).  The recursive executeStep(stepWithoutRetry)
call inside retryStep resolves to exactly this function; the lemma
executeStep_strip below records that correspondence, which keeps the
model free of the (depth-one) recursion of the source. -/
def runStrippedStep {V : Type} (env : Env V) (step : Step V)
    (input ctx : V) (tr : Trace) : StepResult V × Trace :=
  match stepBody env step input ctx tr with
  | (.ok result, tr1) => (mkSuccess step result, tr1)
  | (.error msg, tr1) => (mkFailed step msg, tr1)

/-- One iteration of the retry loop of WorkflowEngine.retryStep
(workflow-engine.js lines 162-188): await the backoff delay, then
re-run executeStep on the step with its retry configuration stripped.
The awaited executeStep promise settles on every path without rejecting
(every path of its body is caught), so the try in the loop body returns
on this first iteration: later iterations never run, and the post-loop
failure result (the zero case here) is reachable only when the loop is
entered with no attempts, which the caller guard precludes. -/
def retryIter {V : Type} (env : Env V) (step : Step V) (input ctx : V)
    (tr : Trace) (r : Retry) (lastMsg : String) (attempt : Nat) :
    Nat → StepResult V × Trace
  | 0 =>
    (mkFailed step ("Step failed after " ++ toString r.attempts ++
        " retries: " ++ lastMsg), tr)
  | _ + 1 =>
    let d := jsOr r.delay 1000 * (jsOr r.backoffFactor 2) ^ (attempt - 1)
    runStrippedStep env { step with retry := none } input ctx
      { tr with delays := tr.delays ++ [d] }

/-- WorkflowEngine.retryStep (workflow-engine.js lines 158-189): the
attempt loop, entered at attempt 1 with all attempts remaining. -/
def retryStep {V : Type} (env : Env V) (step : Step V) (input ctx : V)
    (tr : Trace) (r : Retry) (lastMsg : String) : StepResult V × Trace :=
  retryIter env step input ctx tr r lastMsg 1 r.attempts

/-- WorkflowEngine.executeStep (workflow-engine.js lines 96-156): run
the step body; on success build the success StepResult; on a caught
error, enter retryStep when a retry policy with positive attempts is
present, else record the failure.  Every path returns a StepResult —
the function never throws. -/
def executeStep {V : Type} (env : Env V) (step : Step V) (input ctx : V)
    (tr : Trace) : StepResult V × Trace :=
  match stepBody env step input ctx tr with
  | (.ok result, tr1) => (mkSuccess step result, tr1)
  | (.error msg, tr1) =>
    match step.retry with
    | some r =>
      if r.attempts > 0 then retryStep env step input ctx tr1 r msg
      else (mkFailed step msg, tr1)
    | none => (mkFailed step msg, tr1)

inductive ExecStatus where
  | running
  | completed
  | failed
  | error
deriving Repr, DecidableEq

structure Execution (V : Type) where
  workflow : String
  input : V
  context : V
  steps : List (StepResult V)
  status : ExecStatus
  statusHist : List ExecStatus

/-- Assignment to execution.status, instrumented: the history records
each observable change of value (reassigning the current value changes
nothing observable). -/
def setStatus {V : Type} (e : Execution V) (s : ExecStatus) : Execution V :=
  if e.status = s then e
  else { e with status := s, statusHist := e.statusHist ++ [s] }

/-- The post-loop status fixup (workflow-engine.js line 81): a still
running execution completed; a failed one stays failed. -/
def finishExec {V : Type} (e : Execution V) : Execution V :=
  setStatus e (if e.status = .running then .completed else e.status)

/-- WorkflowEngine.findStepIndex (workflow-engine.js lines 191-197). -/
def findStepIndex {V : Type} (wf : Workflow V) (stepName : String) :
    Except String Nat :=
  match wf.steps.findIdx? (fun s => s.name == stepName) with
  | some i => .ok i
  | none => .error ("Step " ++ stepName ++ " not found in workflow")

inductive RunOutcome (V : Type) where
  | done (e : Execution V)
  | exn (e : Execution V) (msg : String)
  | notFound (msg : String)
  | outOfFuel (e : Execution V) (pc : Nat)

/-- The number of recorded StepResults bearing a given step name —
execution.steps.filter(s implies s.name equal).length at lines 58 and 74
of the source. -/
def countName {V : Type} (steps : List (StepResult V)) (nm : String) : Nat :=
  (steps.filter (fun s => s.name == nm)).length

/-- The loop_to decision (workflow-engine.js lines 56-63): on a step
with loop_to whose attempt did not fail, resolve the target index — a
missing target throws — and jump there when the iteration cap is unset
or the recorded count of this step is still below it; otherwise, and on
failed attempts or steps without loop_to, fall through. -/
def loopDecide {V : Type} (wf : Workflow V) (step : Step V)
    (sr : StepResult V) (steps1 : List (StepResult V)) :
    Except String (Option Nat) :=
  match step.loopTo with
  | some tgt =>
    if sr.status ≠ .failed then
      match findStepIndex wf tgt with
      | .error m => .error m
      | .ok j =>
        match maxIterTruthy wf.maxIterations with
        | none => .ok (some j)
        | some n =>
          if countName steps1 step.name < n then .ok (some j) else .ok none
    else .ok none
  | none => .ok none

/-- The success or failure branch navigation (workflow-engine.js lines
66-70): a successful attempt follows onSuccess, a failed one follows
onFailure, otherwise the counter advances sequentially; a missing
branch target throws. -/
def navDecide {V : Type} (wf : Workflow V) (step : Step V)
    (sr : StepResult V) (i : Nat) : Except String Nat :=
  match sr.status, step.onSuccess, step.onFailure with
  | .success, some t, _ => findStepIndex wf t
  | .failed, _, some t => findStepIndex wf t
  | _, _, _ => .ok (i + 1)

/-- Recording a StepResult (workflow-engine.js lines 45-48): append it
to execution.steps and spread its output over the execution context. -/
def recordStep {V : Type} (env : Env V) (e : Execution V)
    (sr : StepResult V) : Execution V :=
  { e with steps := e.steps ++ [sr],
           context := match sr.output with
                      | some o => env.merge e.context o
                      | none => e.context }

/-- The flow control after a recorded step (workflow-engine.js lines
50-78), over the updated execution e1: either a terminal outcome (inl) —
the stopOnError break, a thrown missing-target error, or the cap break
past the whole loop — or the next program counter (inr): the loop_to
jump, a branch target, or the sequential successor. -/
def stepFlow {V : Type} (wf : Workflow V) (step : Step V)
    (sr : StepResult V) (e1 : Execution V) (i : Nat) :
    Sum (RunOutcome V) Nat :=
  if sr.status = .failed ∧ step.stopOnError then
    .inl (.done (finishExec (setStatus e1 .failed)))
  else
    match loopDecide wf step sr e1.steps with
    | .error m => .inl (.exn (setStatus e1 .error) m)
    | .ok (some j) => .inr j
    | .ok none =>
      match navDecide wf step sr i with
      | .error m => .inl (.exn (setStatus e1 .error) m)
      | .ok i2 =>
        match maxIterTruthy wf.maxIterations with
        | some n =>
          if countName e1.steps step.name ≥ n then
            .inl (.done (finishExec e1))
          else .inr i2
        | none => .inr i2

/-- The step loop of WorkflowEngine.execute (workflow-engine.js lines
35-79), as a fuel-indexed tail recursion over the program counter.  A
jump written i = target - 1 followed by the loop increment lands on the
target, so jumps set the next counter directly.  The two findStepIndex
throw sites propagate as the exn outcome with status error, matching the
catch at lines 87-93. -/
def runSteps {V : Type} (env : Env V) (wf : Workflow V) :
    Nat → Nat → Execution V → Trace → RunOutcome V × Trace
  | 0, i, e, tr => (.outOfFuel e i, tr)
  | fuel + 1, i, e, tr =>
    match wf.steps[i]? with
    | none => (.done (finishExec e), tr)
    | some step =>
      if (match step.condition with
          | some c => !c e.context
          | none => false) then
        runSteps env wf fuel (i + 1) e tr
      else
        match executeStep env step e.input e.context tr with
        | (sr, tr1) =>
          match stepFlow wf step sr (recordStep env e sr) i with
          | .inl out => (out, tr1)
          | .inr j => runSteps env wf fuel j (recordStep env e sr) tr1

/-- WorkflowEngine.execute (workflow-engine.js lines 17-94): resolve the
workflow by name — an unknown name throws before any execution record
exists — then run the step loop from counter 0 on a fresh running
execution. -/
def WorkflowEngine.execute {V : Type} (env : Env V)
    (workflows : List (String × Workflow V)) (fuel : Nat)
    (name : String) (input initCtx : V) : RunOutcome V × Trace :=
  match workflows.lookup name with
  | none => (.notFound ("Workflow " ++ name ++ " not found"), {})
  | some wf =>
    runSteps env wf fuel 0
      { workflow := name, input := input, context := initCtx,
        steps := [], status := .running, statusHist := [.running] } {}

/-! # Theorems -/

/-! ## C8 — FIFO eviction of the response cache -/

lemma mapSet_fresh {V : Type} (m : List (String × CacheEntry V)) (k : String)
    (e : CacheEntry V) (h : ∀ p ∈ m, p.1 ≠ k) :
    mapSet m k e = m ++ [(k, e)] := by
  have hA : m.any (fun p => p.1 == k) = false := by
    rw [List.any_eq_false]
    intro p hp
    simpa using h p hp
  simp [mapSet, hA]

lemma mapDelete_cons_head {V : Type} (k0 : String) (e0 : CacheEntry V)
    (rest : List (String × CacheEntry V)) (h : ∀ p ∈ rest, p.1 ≠ k0) :
    mapDelete ((k0, e0) :: rest) k0 = rest := by
  unfold mapDelete
  rw [List.filter_cons]
  simp only [bne_self_eq_false, if_neg]
  · exact List.filter_eq_self.mpr (fun p hp => by simpa using h p hp)

lemma cacheKeys_length {V : Type} (c : ResponseCache V) :
    (cacheKeys c).length = c.cache.length := by
  simp [cacheKeys]

/-- Inserting a run of pairwise-fresh keys while strictly under capacity
only appends, preserving maxSize. -/
lemma cache_fill_keys {V : Type} (now : Nat) (v : V) :
    ∀ (ks : List String) (c : ResponseCache V), ks.Nodup →
      (∀ k ∈ ks, k ∉ cacheKeys c) →
      c.cache.length + ks.length ≤ c.maxSize →
      cacheKeys (ks.foldl (fun c k => c.set now k v) c) = cacheKeys c ++ ks ∧
      (ks.foldl (fun c k => c.set now k v) c).maxSize = c.maxSize
  | [], c => by intro _ _ _; simp
  | k :: rest, c => by
    intro hnd hfresh hlen
    have hlt : c.cache.length < c.maxSize := by
      simp only [List.length_cons] at hlen
      omega
    have hf : ∀ p ∈ c.cache, p.1 ≠ k := by
      intro p hp hk
      exact hfresh k (by simp) (hk ▸ List.mem_map_of_mem Prod.fst hp)
    have hset : (c.set now k v).cache = c.cache ++ [(k, ⟨v, now + c.ttl, now, 0⟩)] := by
      simp only [ResponseCache.set]
      rw [if_neg (by omega)]
      exact mapSet_fresh _ _ _ hf
    have hkeys : cacheKeys (c.set now k v) = cacheKeys c ++ [k] := by
      simp [cacheKeys, hset]
    have hmax : (c.set now k v).maxSize = c.maxSize := by
      simp [ResponseCache.set]
    have hlen2 : (c.set now k v).cache.length + rest.length ≤ (c.set now k v).maxSize := by
      rw [hset, hmax]
      simp at hlen ⊢
      omega
    have hfresh2 : ∀ k2 ∈ rest, k2 ∉ cacheKeys (c.set now k v) := by
      intro k2 hk2
      rw [hkeys]
      simp only [List.mem_append, List.mem_singleton]
      rintro (h1 | h2)
      · exact hfresh k2 (by simp [hk2]) h1
      · exact (List.nodup_cons.mp hnd).1 (h2 ▸ hk2)
    have ih := cache_fill_keys now v rest (c.set now k v)
      (List.nodup_cons.mp hnd).2 hfresh2 hlen2
    refine ⟨?_, ?_⟩
    · simp only [List.foldl_cons]
      rw [ih.1, hkeys]
      simp
    · simp only [List.foldl_cons]
      rw [ih.2, hmax]

/-- A set into a full cache with distinct keys and a fresh key removes
exactly the head key and appends the new one. -/
lemma cache_evict_head {V : Type} (c : ResponseCache V) (now : Nat)
    (k : String) (v : V) (hnd : (cacheKeys c).Nodup)
    (hfull : c.cache.length = c.maxSize) (hpos : 0 < c.maxSize)
    (hfresh : k ∉ cacheKeys c) :
    cacheKeys (c.set now k v) = (cacheKeys c).tail ++ [k] := by
  match hc : c.cache with
  | [] =>
    rw [hc] at hfull
    simp at hfull
    omega
  | (k0, e0) :: rest =>
    have hk0rest : ∀ p ∈ rest, p.1 ≠ k0 := by
      intro p hp hpk
      have h2 : (cacheKeys c).Nodup := hnd
      rw [show cacheKeys c = k0 :: rest.map Prod.fst by simp [cacheKeys, hc]] at h2
      exact (List.nodup_cons.mp h2).1 (hpk ▸ List.mem_map_of_mem Prod.fst hp)
    have hkfresh : ∀ p ∈ c.cache, p.1 ≠ k := by
      intro p hp hpk
      exact hfresh (hpk ▸ List.mem_map_of_mem Prod.fst hp)
    simp only [ResponseCache.set]
    rw [if_pos (by omega), hc]
    simp only [List.head?_cons]
    rw [mapDelete_cons_head k0 e0 rest hk0rest]
    rw [mapSet_fresh rest k _ (by intro p hp; exact hkfresh p (by rw [hc]; exact List.mem_cons_of_mem _ hp))]
    simp [cacheKeys, hc]

/-- C8: a set into a cache already holding maxSize entries evicts
exactly the first-inserted entry, independent of hit counters; and
inserting maxSize + 1 distinct keys into an initially empty cache
leaves exactly the first-inserted key evicted and no other. -/
theorem cache_fifo_c8 {V : Type} :
    (∀ (c : ResponseCache V) (now : Nat) (k : String) (v : V),
      (cacheKeys c).Nodup → c.cache.length = c.maxSize → 0 < c.maxSize →
      k ∉ cacheKeys c →
      cacheKeys (c.set now k v) = (cacheKeys c).tail ++ [k]) ∧
    (∀ (ks : List String) (ttl maxSize now : Nat) (v : V),
      ks.Nodup → ks.length = maxSize + 1 → 0 < maxSize →
      cacheKeys (ks.foldl (fun c k => c.set now k v)
        { cache := [], ttl := ttl, maxSize := maxSize, hits := 0, misses := 0 }) =
        ks.tail) := by
  constructor
  · exact cache_evict_head
  · intro ks ttl maxSize now v hnd hlen hpos
    have hne : ks ≠ [] := by
      intro h
      rw [h] at hlen
      simp at hlen
    obtain ⟨l, z, hks⟩ : ∃ l z, ks = l ++ [z] :=
      ⟨ks.dropLast, ks.getLast hne, (List.dropLast_append_getLast hne).symm⟩
    have hlnd : l.Nodup := by
      rw [hks] at hnd
      exact (List.nodup_append.mp hnd).1
    have hzl : z ∉ l := by
      rw [hks] at hnd
      intro hz
      exact (List.nodup_append.mp hnd).2.2 hz (by simp)
    have hllen : l.length = maxSize := by
      rw [hks] at hlen
      simp at hlen
      omega
    set c0 : ResponseCache V :=
      { cache := [], ttl := ttl, maxSize := maxSize, hits := 0, misses := 0 } with hc0
    have hfill := cache_fill_keys now v l c0 hlnd (by intro k _; simp [cacheKeys, hc0])
      (by simp [hc0]; omega)
    have hkeys : cacheKeys (l.foldl (fun c k => c.set now k v) c0) = l := by
      rw [hfill.1]
      simp [cacheKeys, hc0]
    set c1 := l.foldl (fun c k => c.set now k v) c0 with hc1
    have hfold : ks.foldl (fun c k => c.set now k v) c0 = c1.set now z v := by
      rw [hks, List.foldl_append]
      simp
    rw [hfold]
    have hnd1 : (cacheKeys c1).Nodup := by rw [hkeys]; exact hlnd
    have hlen1 : c1.cache.length = c1.maxSize := by
      have h := cacheKeys_length c1
      rw [hkeys] at h
      rw [← h, hllen, hfill.2]
    have hpos1 : 0 < c1.maxSize := by
      rw [hfill.2]
      simpa [hc0] using hpos
    have hfz : z ∉ cacheKeys c1 := by rw [hkeys]; exact hzl
    rw [cache_evict_head c1 now z v hnd1 hlen1 hpos1 hfz, hkeys, hks]
    have hl : l ≠ [] := by
      intro h
      rw [h] at hllen
      simp at hllen
      omega
    match l, hl with
    | a :: l2, _ => simp

/-- A concrete full two-entry cache, the first entry having been hit
seven times, used to witness the FIFO theorem. -/
def fullCacheW : ResponseCache Nat :=
  { cache := [("a", ⟨1, 10, 0, 7⟩), ("b", ⟨2, 10, 0, 0⟩)],
    ttl := 5, maxSize := 2, hits := 0, misses := 0 }

theorem cache_fifo_c8_witness :
    cacheKeys (fullCacheW.set 0 "c" 3) = ["b", "c"] ∧
    cacheKeys ((["a", "b", "c"] : List String).foldl
      (fun c k => c.set 0 k (1 : Nat))
      { cache := [], ttl := 5, maxSize := 2, hits := 0, misses := 0 }) =
      ["b", "c"] := by
  constructor
  · have h := (cache_fifo_c8 (V := Nat)).1 fullCacheW 0 "c" 3
      (by decide) (by decide) (by decide) (by decide)
    exact h.trans (by decide)
  · have h := (cache_fifo_c8 (V := Nat)).2 ["a", "b", "c"] 5 2 0 1
      (by decide) (by decide) (by decide)
    exact h.trans (by decide)

/-! ## C6 — agent selection never fails; first argmax wins -/

/-- The selection fold computes the reference best, unless the running
score already dominates it. -/
lemma selFold_bestOf (reqs : Option Requirements) :
    ∀ (l : List RegisteredAgent) (b0 : Option String) (s0 : ℚ),
      l.foldl (selStep reqs) (b0, s0) =
        (match bestOf reqs l with
         | none => (b0, s0)
         | some (b, s) => if s > s0 then (some b, s) else (b0, s0))
  | [], b0, s0 => by simp [bestOf]
  | a :: rest, b0, s0 => by
    have ih := selFold_bestOf reqs rest
    rcases hb : bestOf reqs rest with _ | ⟨b, s⟩ <;>
      by_cases h0 : calculateScore a.caps reqs > s0
    · simp [bestOf, hb, selStep, h0, ih]
    · simp [bestOf, hb, selStep, h0, ih]
    · by_cases h1 : calculateScore a.caps reqs ≥ s
      · have h2 : ¬ s > calculateScore a.caps reqs := not_lt.mpr h1
        simp [bestOf, hb, selStep, h0, h1, h2, ih]
      · have hs : s > calculateScore a.caps reqs := lt_of_not_ge h1
        have hs0 : s > s0 := lt_trans h0 hs
        simp [bestOf, hb, selStep, h0, h1, hs, hs0, ih]
    · by_cases h1 : calculateScore a.caps reqs ≥ s
      · have hss0 : ¬ s > s0 := fun hgt => h0 (lt_of_lt_of_le hgt h1)
        simp [bestOf, hb, selStep, h0, h1, hss0, ih]
      · simp [bestOf, hb, selStep, h0, h1, ih]

/-- The reference best is attained at the earliest maximal index. -/
lemma bestOf_spec (reqs : Option Requirements) :
    ∀ (l : List RegisteredAgent), l ≠ [] →
      ∃ (i : Nat) (h : i < l.length),
        bestOf reqs l = some ((l.get ⟨i, h⟩).agent,
          calculateScore (l.get ⟨i, h⟩).caps reqs) ∧
        (∀ (j : Nat) (hj : j < l.length),
          calculateScore (l.get ⟨j, hj⟩).caps reqs ≤
            calculateScore (l.get ⟨i, h⟩).caps reqs) ∧
        (∀ (j : Nat) (hj : j < l.length), j < i →
          calculateScore (l.get ⟨j, hj⟩).caps reqs <
            calculateScore (l.get ⟨i, h⟩).caps reqs)
  | [], h => absurd rfl h
  | a :: rest, _ => by
    match hrest : rest with
    | [] =>
      refine ⟨0, by simp, by simp [bestOf], ?_, ?_⟩
      · intro j hj
        match j with
        | 0 => simp
        | j2 + 1 =>
          simp only [List.length_cons, List.length_nil] at hj
          omega
      · intro j hj hj0
        omega
    | b :: rest2 =>
      obtain ⟨i, hi, hbo, hmax, hfirst⟩ := bestOf_spec reqs rest (by simp [hrest])
      rw [← hrest]
      by_cases hge : calculateScore a.caps reqs ≥
          calculateScore (rest.get ⟨i, hi⟩).caps reqs
      · refine ⟨0, by simp, ?_, ?_, ?_⟩
        · simp only [bestOf]
          rw [hbo]
          simp [hge]
          intro h2
          exact absurd h2 (not_lt.mpr hge)
        · intro j hj
          match j with
          | 0 => simp
          | j2 + 1 =>
            have hj2 : j2 < rest.length := by
              simp at hj
              omega
            have := hmax j2 hj2
            simp only [List.get_cons_succ]
            exact le_trans this hge
        · intro j hj hj0
          omega
      · refine ⟨i + 1, by simp; omega, ?_, ?_, ?_⟩
        · simp only [bestOf]
          rw [hbo]
          simp [hge]
          intro h2
          exact absurd (lt_of_not_ge hge) (not_lt.mpr h2)
        · intro j hj
          match j with
          | 0 =>
            simp only [List.get_cons_succ, List.get_cons_zero]
            exact le_of_lt (lt_of_not_ge hge)
          | j2 + 1 =>
            have hj2 : j2 < rest.length := by
              simp at hj
              omega
            simp only [List.get_cons_succ]
            exact hmax j2 hj2
        · intro j hj hj0
          match j with
          | 0 =>
            simp only [List.get_cons_succ, List.get_cons_zero]
            exact lt_of_not_ge hge
          | j2 + 1 =>
            have hj2 : j2 < rest.length := by
              simp at hj
              omega
            simp only [List.get_cons_succ]
            exact hfirst j2 hj2 (by omega)

/-- C6: with at least one registered agent and genuine (nonnegative)
capability scores, selectBestAgent returns the agent of the earliest
index attaining the maximal score — in particular it never returns
null, ties go to the earlier-registered agent, and when every score is
non-positive the first registered agent wins. -/
theorem selectBestAgent_c6 (agents : List RegisteredAgent)
    (reqs : Option Requirements) (hne : agents ≠ [])
    (hnn : ∀ a ∈ agents, 0 ≤ calculateScore a.caps reqs) :
    ∃ (i : Nat) (h : i < agents.length),
      selectBestAgent agents reqs = some ((agents.get ⟨i, h⟩).agent) ∧
      (∀ (j : Nat) (hj : j < agents.length),
        calculateScore (agents.get ⟨j, hj⟩).caps reqs ≤
          calculateScore (agents.get ⟨i, h⟩).caps reqs) ∧
      (∀ (j : Nat) (hj : j < agents.length), j < i →
        calculateScore (agents.get ⟨j, hj⟩).caps reqs <
          calculateScore (agents.get ⟨i, h⟩).caps reqs) := by
  obtain ⟨i, hi, hbo, hmax, hfirst⟩ := bestOf_spec reqs agents hne
  refine ⟨i, hi, ?_, hmax, hfirst⟩
  match agents, hne, i, hi, hbo, hnn with
  | a0 :: rest, _, i, hi, hbo, hnn =>
    simp only [selectBestAgent]
    rw [selFold_bestOf reqs (a0 :: rest) none (-1 : ℚ), hbo]
    have hgt : calculateScore (((a0 :: rest).get ⟨i, hi⟩)).caps reqs > -1 := by
      have h0 := hnn ((a0 :: rest).get ⟨i, hi⟩) (List.get_mem _ _ _)
      linarith
    simp only [List.get_eq_getElem] at hgt
    simp [hgt]

def capsW1 : Capabilities :=
  { scores := [("planning", 1/2), ("execution", 9/10)],
    languages := ["js"], contextWindow := some 1000 }

def capsW2 : Capabilities :=
  { scores := [("planning", 4/5), ("execution", 1/2)],
    languages := [], contextWindow := none }

def agentsW : List RegisteredAgent :=
  [{ name := "claude", agent := "claude", caps := capsW1 },
   { name := "gemini", agent := "gemini", caps := capsW2 }]

def reqsW : Option Requirements :=
  some { role := some "planning", language := none,
         contextSize := none, complexity := none }

theorem selectBestAgent_c6_witness :
    ∃ (i : Nat) (h : i < agentsW.length),
      selectBestAgent agentsW reqsW = some ((agentsW.get ⟨i, h⟩).agent) ∧
      (∀ (j : Nat) (hj : j < agentsW.length),
        calculateScore (agentsW.get ⟨j, hj⟩).caps reqsW ≤
          calculateScore (agentsW.get ⟨i, h⟩).caps reqsW) ∧
      (∀ (j : Nat) (hj : j < agentsW.length), j < i →
        calculateScore (agentsW.get ⟨j, hj⟩).caps reqsW <
          calculateScore (agentsW.get ⟨i, h⟩).caps reqsW) :=
  selectBestAgent_c6 agentsW reqsW
    (by unfold agentsW; exact List.cons_ne_nil _ _)
    (by
      intro a ha
      fin_cases ha <;>
        norm_num [calculateScore, reqsW, Capabilities.roleScore, capsW1,
          capsW2, List.lookup])

/-! ## C5 — adapter behaviour on process exit before the timeout -/

/-- C5 counterexample: the UniversalCLI adapter rejects a non-zero exit
even though the accumulated output is non-empty, where the claim
demands a degraded success returning that output. -/
theorem adapter_exit_c5_counterexample :
    jsTrim "hello" ≠ "" ∧
    collectOutputOnClose 1 "hello" "" =
      .error "Process exited with code 1: " := by
  exact ⟨by decide, rfl⟩

/-- C5 amended: the degraded-success rule holds for the Gemini executor
close handler — zero exit or any non-empty trimmed output resolves, and
only an empty-output non-zero exit fails — while UniversalCLI
collectOutput resolves exactly the zero exits and rejects every
non-zero exit whatever the output. -/
theorem adapter_exit_c5_amended :
    (∀ (code : Int) (out err : String), code = 0 →
      geminiOnClose code out err = .ok (jsTrim out)) ∧
    (∀ (code : Int) (out err : String), code ≠ 0 → jsTrim out ≠ "" →
      geminiOnClose code out err = .ok (jsTrim out)) ∧
    (∀ (code : Int) (out err : String), code ≠ 0 → jsTrim out = "" →
      geminiOnClose code out err = .error ("Gemini failed: " ++ err)) ∧
    (∀ (code : Int) (out err : String), code = 0 →
      collectOutputOnClose code out err = .ok (jsTrim out)) ∧
    (∀ (code : Int) (out err : String), code ≠ 0 →
      collectOutputOnClose code out err =
        .error ("Process exited with code " ++ toString code ++ ": " ++ err)) := by
  refine ⟨?_, ?_, ?_, ?_, ?_⟩
  · intro code out err h
    simp [geminiOnClose, h]
  · intro code out err h ho
    simp [geminiOnClose, ho]
  · intro code out err h ho
    simp [geminiOnClose, h, ho]
  · intro code out err h
    simp [collectOutputOnClose, h]
  · intro code out err h
    simp [collectOutputOnClose, h]

theorem adapter_exit_c5_witness :
    geminiOnClose 0 " x " "" = .ok "x" ∧
    geminiOnClose 3 " x " "" = .ok "x" ∧
    geminiOnClose 3 "  " "boom" = .error "Gemini failed: boom" ∧
    collectOutputOnClose 0 " x " "" = .ok "x" ∧
    collectOutputOnClose 3 " x " "e" =
      .error "Process exited with code 3: e" :=
  ⟨(adapter_exit_c5_amended.1 0 " x " "" rfl).trans (by rfl),
   (adapter_exit_c5_amended.2.1 3 " x " "" (by decide) (by decide)).trans (by rfl),
   adapter_exit_c5_amended.2.2.1 3 "  " "boom" (by decide) (by decide),
   (adapter_exit_c5_amended.2.2.2.1 0 " x " "" rfl).trans (by rfl),
   adapter_exit_c5_amended.2.2.2.2 3 " x " "e" (by decide)⟩

/-! ## C4 — parallel dispatch in all mode -/

/-- When every requested name is registered, the registry scan drops
nothing and executeParallel runs every branch in request order. -/
lemma executeParallel_reg {V : Type} (lookup : String → Option (PAgent V))
    (exec : PAgent V → String → Except String V)
    (names : List String) (prompt : String) (hne : names ≠ [])
    (hreg : ∀ n ∈ names, (lookup n).isSome) :
    executeParallel lookup exec names prompt =
      .ok (names.map (fun n =>
        (lookup n).elim (POutcome.err "" "")
          (fun a => invokeAgent exec a prompt))) := by
  have hmap : ∀ (l : List String), (∀ n ∈ l, (lookup n).isSome) →
      (l.filterMap lookup).map (fun a => invokeAgent exec a prompt) =
        l.map (fun n => (lookup n).elim (POutcome.err "" "")
          (fun a => invokeAgent exec a prompt)) := by
    intro l
    induction l with
    | nil => intro _; simp
    | cons n rest ih =>
      intro hl
      have hn : (lookup n).isSome := hl n (by simp)
      match hln : lookup n with
      | some a =>
        simp only [List.filterMap_cons, hln, List.map_cons]
        rw [ih (fun m hm => hl m (List.mem_cons_of_mem _ hm))]
        rfl
      | none => rw [hln] at hn; simp at hn
  obtain ⟨n0, rest, rfl⟩ : ∃ n0 rest, names = n0 :: rest := by
    match names, hne with
    | n0 :: rest, _ => exact ⟨n0, rest, rfl⟩
  have h0 : (lookup n0).isSome := hreg n0 (by simp)
  match hl0 : lookup n0 with
  | some a0 =>
    have hemp : ((n0 :: rest).filterMap lookup).isEmpty = false := by
      simp [List.filterMap_cons, hl0]
    simp only [executeParallel, hemp, Bool.false_eq_true, if_false]
    rw [hmap (n0 :: rest) hreg]
  | none => rw [hl0] at h0; simp at h0

/-- C4: a parallel dispatch over requested registered agents returns an
ordered outcome per requested agent — failures appear in place as tagged
error entries, siblings are unaffected, and the array order and length
match the requested name list. -/
theorem executeParallel_all_c4 {V : Type}
    (lookup : String → Option (PAgent V))
    (exec : PAgent V → String → Except String V)
    (names : List String) (prompt : String) (hne : names ≠ [])
    (hreg : ∀ n ∈ names, (lookup n).isSome) :
    ∃ outs, executeParallel lookup exec names prompt = .ok outs ∧
      outs.length = names.length ∧
      outs = names.map (fun n =>
        (lookup n).elim (POutcome.err "" "")
          (fun a => invokeAgent exec a prompt)) :=
  ⟨_, executeParallel_reg lookup exec names prompt hne hreg, by simp, rfl⟩

def lookupC4 : String → Option (PAgent String) :=
  fun n => if n = "claude" then some ⟨"claude"⟩
           else if n = "gemini" then some ⟨"gemini"⟩ else none

def execC4 : PAgent String → String → Except String String :=
  fun a p => if a.name = "claude" then .error "claude is down"
             else .ok (p ++ ":done")

theorem executeParallel_all_c4_witness :
    ∃ outs, executeParallel lookupC4 execC4 ["claude", "gemini"] "task" =
        .ok outs ∧
      outs.length = (["claude", "gemini"] : List String).length ∧
      outs = (["claude", "gemini"] : List String).map (fun n =>
        (lookupC4 n).elim (POutcome.err "" "")
          (fun a => invokeAgent execC4 a "task")) :=
  executeParallel_all_c4 lookupC4 execC4 ["claude", "gemini"] "task"
    (by decide) (by decide)

/-! ## C3 — vote aggregation -/

/-- C3 counterexample: on the race-ordered results (a, b, b) the most
frequent result by equality is b, but the vote mode returns the first
result a — the placeholder ignores frequencies. -/
theorem vote_c3_counterexample :
    specVote [POutcome.ok "a", POutcome.ok "b", POutcome.ok ("b" : String)] =
      some (.ok "b") ∧
    aggregateResults "vote"
      [POutcome.ok "a", POutcome.ok "b", POutcome.ok ("b" : String)] =
      .single (some (.ok "a")) := by
  exact ⟨rfl, rfl⟩

/-- C3 amended: for a parallel dispatch over registered agents, the vote
mode returns the outcome of the first requested agent (the first element
in race order), irrespective of how frequent any result is. -/
theorem vote_c3_amended {V : Type}
    (lookup : String → Option (PAgent V))
    (exec : PAgent V → String → Except String V)
    (names : List String) (prompt : String) (hne : names ≠ [])
    (hreg : ∀ n ∈ names, (lookup n).isSome) :
    ∃ rs, executeParallel lookup exec names prompt = .ok rs ∧
      rs = names.map (fun n =>
        (lookup n).elim (POutcome.err "" "")
          (fun a => invokeAgent exec a prompt)) ∧
      handleOrchestrateParallel lookup exec prompt names "vote" =
        .ok (.single rs.head?) := by
  refine ⟨_, executeParallel_reg lookup exec names prompt hne hreg, rfl, ?_⟩
  simp only [handleOrchestrateParallel,
    executeParallel_reg lookup exec names prompt hne hreg]
  simp [aggregateResults]

def lookupC3 : String → Option (PAgent String) :=
  fun n => if n = "g1" then some ⟨"g1"⟩
           else if n = "g2" then some ⟨"g2"⟩
           else if n = "g3" then some ⟨"g3"⟩ else none

def execC3 : PAgent String → String → Except String String :=
  fun a _ => if a.name = "g1" then .ok "y" else .ok "x"

theorem vote_c3_witness :
    ∃ rs, executeParallel lookupC3 execC3 ["g1", "g2", "g3"] "q" = .ok rs ∧
      rs = (["g1", "g2", "g3"] : List String).map (fun n =>
        (lookupC3 n).elim (POutcome.err "" "")
          (fun a => invokeAgent execC3 a "q")) ∧
      handleOrchestrateParallel lookupC3 execC3 "q" ["g1", "g2", "g3"]
        "vote" = .ok (.single rs.head?) :=
  vote_c3_amended lookupC3 execC3 ["g1", "g2", "g3"] "q"
    (by decide) (by decide)

/-! ## C7 — dispatcher cache key and hit behaviour -/

/-- C7 counterexample: the requests (agent gemini, role execute) and
(agent claude, role auto) over the same raw prompt produce the same
final prompt, hence the same cache key; after the first stores its
(truthy) result, the second returns the cached value without spawning,
contradicting that requests differing in agent or role use distinct
keys. -/
theorem cache_key_c7_counterexample :
    preparePrompt "p" "execute" "gemini" = preparePrompt "p" "auto" "claude" ∧
    ((UniversalCLI.execute jsStrTruthy (fun _ => .error "would spawn")
      (UniversalCLI.execute jsStrTruthy (fun _ => .ok "res")
        { cache := [], ttl := 1000, maxSize := 100, hits := 0, misses := 0 }
        0 "gemini" "p" "execute").2.2
      0 "claude" "p" "auto").1 = .ok "res" ∧
     (UniversalCLI.execute jsStrTruthy (fun _ => .error "would spawn")
      (UniversalCLI.execute jsStrTruthy (fun _ => .ok "res")
        { cache := [], ttl := 1000, maxSize := 100, hits := 0, misses := 0 }
        0 "gemini" "p" "execute").2.2
      0 "claude" "p" "auto").2.1 = false) := by
  exact ⟨rfl, rfl, rfl⟩

/-- C7 amended: the dispatcher consults the cache before the process
adapter, under the key preparePrompt(prompt, role, agent) — the
role-and-agent templated prompt, not the triple itself.  On a hit whose
cached value is truthy, that value is returned with no process
spawned; a hit whose cached value is falsy (an empty trimmed output is
a cacheable result) falls through the if (cached) guard and takes the
spawn path exactly like a miss. -/
theorem cache_key_c7_amended {V : Type} (truthy : V → Bool)
    (spawn : String → Except String V)
    (c : ResponseCache (TaskV V)) (now : Nat) (name prompt role : String)
    (v : V)
    (hhit : getCachedResult c now (preparePrompt prompt role name) = some v) :
    (truthy v = true →
      UniversalCLI.execute truthy spawn c now name prompt role =
        (.ok v, false, c)) ∧
    (truthy v = false →
      UniversalCLI.execute truthy spawn c now name prompt role =
        UniversalCLI.spawnPath spawn c now (preparePrompt prompt role name)) := by
  constructor
  · intro ht
    simp only [UniversalCLI.execute, hhit, ht, if_true]
  · intro hf
    simp only [UniversalCLI.execute, hhit, hf, Bool.false_eq_true, if_false]

theorem cache_key_c7_witness :
    (UniversalCLI.execute jsStrTruthy (fun _ => .error "would spawn")
      ({ cache := [("p", ⟨⟨"p", "res"⟩, 5, 0, 0⟩)], ttl := 5, maxSize := 100,
         hits := 0, misses := 0 } : ResponseCache (TaskV String))
      0 "gemini" "p" "execute" =
      (.ok "res", false,
       { cache := [("p", ⟨⟨"p", "res"⟩, 5, 0, 0⟩)], ttl := 5, maxSize := 100,
         hits := 0, misses := 0 })) ∧
    (UniversalCLI.execute jsStrTruthy (fun _ => .ok "spawned")
      ({ cache := [("p", ⟨⟨"p", ""⟩, 5, 0, 0⟩)], ttl := 5, maxSize := 100,
         hits := 0, misses := 0 } : ResponseCache (TaskV String))
      0 "gemini" "p" "execute" =
      UniversalCLI.spawnPath (fun _ => .ok "spawned")
        { cache := [("p", ⟨⟨"p", ""⟩, 5, 0, 0⟩)], ttl := 5, maxSize := 100,
          hits := 0, misses := 0 }
        0 (preparePrompt "p" "execute" "gemini")) :=
  ⟨(cache_key_c7_amended jsStrTruthy (fun _ => .error "would spawn") _ 0
      "gemini" "p" "execute" "res" (by rfl)).1 (by decide),
   (cache_key_c7_amended jsStrTruthy (fun _ => .ok "spawned") _ 0
      "gemini" "p" "execute" "" (by rfl)).2 (by decide)⟩

/-! ## Workflow engine structural lemmas -/

lemma setStatus_steps {V : Type} (e : Execution V) (s : ExecStatus) :
    (setStatus e s).steps = e.steps := by
  unfold setStatus
  split <;> rfl

lemma finishExec_steps {V : Type} (e : Execution V) :
    (finishExec e).steps = e.steps := setStatus_steps e _

lemma setStatus_change {V : Type} (e : Execution V) (s : ExecStatus)
    (h : e.status ≠ s) :
    (setStatus e s).status = s ∧
    (setStatus e s).statusHist = e.statusHist ++ [s] := by
  simp [setStatus, h]

lemma finishExec_of_running {V : Type} (e : Execution V)
    (h : e.status = .running) :
    (finishExec e).status = .completed ∧
    (finishExec e).statusHist = e.statusHist ++ [.completed] := by
  unfold finishExec
  rw [if_pos h]
  exact setStatus_change e .completed (by rw [h]; decide)

lemma finishExec_of_not_running {V : Type} (e : Execution V)
    (h : e.status ≠ .running) : finishExec e = e := by
  unfold finishExec
  rw [if_neg h]
  simp [setStatus]

lemma runStrippedStep_name {V : Type} (env : Env V) (step : Step V)
    (input ctx : V) (tr : Trace) :
    (runStrippedStep env step input ctx tr).1.name = step.name := by
  unfold runStrippedStep
  split <;> rfl

lemma retryIter_name {V : Type} (env : Env V) (step : Step V)
    (input ctx : V) (tr : Trace) (r : Retry) (msg : String)
    (attempt : Nat) :
    ∀ rem, (retryIter env step input ctx tr r msg attempt rem).1.name =
      step.name
  | 0 => rfl
  | _ + 1 =>
    runStrippedStep_name env { step with retry := none } input ctx _

lemma executeStep_name {V : Type} (env : Env V) (step : Step V)
    (input ctx : V) (tr : Trace) :
    (executeStep env step input ctx tr).1.name = step.name := by
  unfold executeStep
  split
  · rfl
  · split
    · split
      · exact retryIter_name env step input ctx _ _ _ 1 _
      · rfl
    · rfl

/-! ## C9 — execution status is monotone -/

lemma recordStep_status {V : Type} (env : Env V) (e : Execution V)
    (sr : StepResult V) : (recordStep env e sr).status = e.status := rfl

lemma recordStep_statusHist {V : Type} (env : Env V) (e : Execution V)
    (sr : StepResult V) :
    (recordStep env e sr).statusHist = e.statusHist := rfl

/-- Every terminal verdict of the flow control moves a running
execution to exactly one terminal status, appending exactly that status
to the history; a jump leaves the execution untouched. -/
lemma stepFlow_status {V : Type} (wf : Workflow V) (step : Step V)
    (sr : StepResult V) (e1 : Execution V) (i : Nat)
    (hrun : e1.status = .running) :
    match stepFlow wf step sr e1 i with
    | .inl (.done e2) => (e2.status = .completed ∨ e2.status = .failed) ∧
        e2.statusHist = e1.statusHist ++ [e2.status]
    | .inl (.exn e2 _) => e2.status = .error ∧
        e2.statusHist = e1.statusHist ++ [.error]
    | .inl (.notFound _) => False
    | .inl (.outOfFuel _ _) => False
    | .inr _ => True := by
  unfold stepFlow
  by_cases hstop : sr.status = .failed ∧ step.stopOnError
  · rw [if_pos hstop]
    have hset := setStatus_change e1 .failed (by rw [hrun]; decide)
    have hfe := finishExec_of_not_running (setStatus e1 .failed)
      (by rw [hset.1]; decide)
    simp only [hfe]
    exact ⟨Or.inr hset.1, by rw [hset.2, hset.1]⟩
  · rw [if_neg hstop]
    match loopDecide wf step sr e1.steps with
    | .error m =>
      have hset := setStatus_change e1 .error (by rw [hrun]; decide)
      exact ⟨hset.1, hset.2⟩
    | .ok (some j) => trivial
    | .ok none =>
      match navDecide wf step sr i with
      | .error m =>
        have hset := setStatus_change e1 .error (by rw [hrun]; decide)
        exact ⟨hset.1, hset.2⟩
      | .ok i2 =>
        match maxIterTruthy wf.maxIterations with
        | some n =>
          by_cases hcap : countName e1.steps step.name ≥ n
          · simp only []
            rw [if_pos hcap]
            have hf := finishExec_of_running e1 hrun
            exact ⟨Or.inl hf.1, by rw [hf.2, hf.1]⟩
          · simp only []
            rw [if_neg hcap]
            trivial
        | none => trivial

lemma runSteps_status {V : Type} (env : Env V) (wf : Workflow V) :
    ∀ (fuel i : Nat) (e : Execution V) (tr : Trace), e.status = .running →
      (match (runSteps env wf fuel i e tr).1 with
       | .done e2 => (e2.status = .completed ∨ e2.status = .failed) ∧
           e2.statusHist = e.statusHist ++ [e2.status]
       | .exn e2 _ => e2.status = .error ∧
           e2.statusHist = e.statusHist ++ [.error]
       | .notFound _ => True
       | .outOfFuel e2 _ => e2.status = .running ∧
           e2.statusHist = e.statusHist) := by
  intro fuel
  induction fuel with
  | zero =>
    intro i e tr h
    simp [runSteps, h]
  | succ n ih =>
    intro i e tr h
    rw [runSteps]
    match hstep : wf.steps[i]? with
    | none =>
      have hf := finishExec_of_running e h
      exact ⟨Or.inl hf.1, by rw [hf.2, hf.1]⟩
    | some step =>
      simp only []
      by_cases hc : (match step.condition with
                     | some c => !c e.context
                     | none => false) = true
      · rw [if_pos hc]
        exact ih (i + 1) e tr h
      · rw [if_neg hc]
        match hE : executeStep env step e.input e.context tr with
        | (sr, tr1) =>
          simp only []
          have hrec : (recordStep env e sr).status = .running := h
          have hrechist : (recordStep env e sr).statusHist = e.statusHist := rfl
          have hsf := stepFlow_status wf step sr (recordStep env e sr) i hrec
          match hflow : stepFlow wf step sr (recordStep env e sr) i with
          | .inl out =>
            rw [hflow] at hsf
            simp only []
            cases out with
            | done e2 =>
              exact ⟨hsf.1, by rw [← hrechist]; exact hsf.2⟩
            | exn e2 m =>
              exact ⟨hsf.1, by rw [← hrechist]; exact hsf.2⟩
            | notFound m => exact hsf.elim
            | outOfFuel e2 p => exact hsf.elim
          | .inr j =>
            have hres := ih j (recordStep env e sr) tr1 hrec
            rw [hrechist] at hres
            exact hres

/-- C9: in every run, Execution.status starts as running and moves
monotonically to exactly one terminal status — completed or failed on a
normal return, error on a thrown configuration error — and never
changes again; a run that exhausts its fuel is still running with no
transition recorded. -/
theorem execution_status_monotone_c9 {V : Type} (env : Env V)
    (workflows : List (String × Workflow V)) (fuel : Nat)
    (name : String) (input initCtx : V) :
    (match (WorkflowEngine.execute env workflows fuel name input initCtx).1 with
     | .done e => (e.status = .completed ∨ e.status = .failed) ∧
         e.statusHist = [.running, e.status]
     | .exn e _ => e.status = .error ∧ e.statusHist = [.running, .error]
     | .notFound _ => True
     | .outOfFuel e _ => e.status = .running ∧ e.statusHist = [.running]) := by
  unfold WorkflowEngine.execute
  match hwf : workflows.lookup name with
  | none => simp
  | some wf =>
    have hrs := runSteps_status env wf fuel 0
      { workflow := name, input := input, context := initCtx,
        steps := [], status := .running, statusHist := [.running] } {} rfl
    simp only []
    revert hrs
    match (runSteps env wf fuel 0
      { workflow := name, input := input, context := initCtx,
        steps := [], status := .running, statusHist := [.running] } {}).1 with
    | .done e2 => exact fun hrs => hrs
    | .exn e2 m => exact fun hrs => hrs
    | .notFound m => exact fun _ => trivial
    | .outOfFuel e2 p => exact fun hrs => hrs

/-! ## C10 — execute throws only for configuration errors -/

/-- A branch-target reference is well formed when absent or naming some
step of the workflow. -/
def targetOkB {V : Type} (wf : Workflow V) (o : Option String) : Bool :=
  match o with
  | some t => wf.steps.any (fun s => s.name == t)
  | none => true

/-- Every loop_to / onSuccess / onFailure reference of every step names
a step of the workflow. -/
def validTargetsB {V : Type} (wf : Workflow V) : Bool :=
  wf.steps.all (fun st =>
    targetOkB wf st.loopTo && targetOkB wf st.onSuccess &&
      targetOkB wf st.onFailure)

lemma findStepIndex_ok_of_any {V : Type} (wf : Workflow V) (t : String)
    (h : wf.steps.any (fun s => s.name == t) = true) :
    ∃ j, findStepIndex wf t = .ok j := by
  unfold findStepIndex
  match hidx : wf.steps.findIdx? (fun s => s.name == t) with
  | some j =>
    rw [hidx]
    exact ⟨j, rfl⟩
  | none =>
    rw [List.findIdx?_eq_none_iff] at hidx
    obtain ⟨x, hx, hpx⟩ := List.any_eq_true.mp h
    rw [hidx x hx] at hpx
    simp at hpx

lemma loopDecide_ok {V : Type} (wf : Workflow V) (step : Step V)
    (sr : StepResult V) (steps1 : List (StepResult V))
    (hok : targetOkB wf step.loopTo = true) :
    ∃ o, loopDecide wf step sr steps1 = .ok o := by
  unfold loopDecide
  match hlt : step.loopTo with
  | none => exact ⟨none, rfl⟩
  | some t =>
    rw [hlt] at hok
    obtain ⟨j, hj⟩ := findStepIndex_ok_of_any wf t hok
    simp only []
    by_cases hs : sr.status ≠ .failed
    · rw [if_pos hs, hj]
      match hmx : maxIterTruthy wf.maxIterations with
      | none => exact ⟨some j, rfl⟩
      | some n =>
        simp only []
        by_cases hcnt : countName steps1 step.name < n
        · exact ⟨some j, by rw [if_pos hcnt]⟩
        · exact ⟨none, by rw [if_neg hcnt]⟩
    · rw [if_neg hs]
      exact ⟨none, rfl⟩

lemma navDecide_ok {V : Type} (wf : Workflow V) (step : Step V)
    (sr : StepResult V) (i : Nat)
    (hsucc : targetOkB wf step.onSuccess = true)
    (hfail : targetOkB wf step.onFailure = true) :
    ∃ j, navDecide wf step sr i = .ok j := by
  unfold navDecide
  match hst : sr.status, hos : step.onSuccess, hof : step.onFailure with
  | .success, some t, _ =>
    rw [hos] at hsucc
    exact findStepIndex_ok_of_any wf t hsucc
  | .failed, none, some t =>
    rw [hof] at hfail
    exact findStepIndex_ok_of_any wf t hfail
  | .success, none, _ => exact ⟨i + 1, rfl⟩
  | .failed, _, none => exact ⟨i + 1, rfl⟩
  | .failed, some t2, some t =>
    rw [hof] at hfail
    exact findStepIndex_ok_of_any wf t hfail

/-- Under well-formed targets the flow control never produces a thrown
outcome: it halts with done or jumps. -/
lemma stepFlow_no_exn {V : Type} (wf : Workflow V) (step : Step V)
    (sr : StepResult V) (e1 : Execution V) (i : Nat)
    (hloop : targetOkB wf step.loopTo = true)
    (hsucc : targetOkB wf step.onSuccess = true)
    (hfail : targetOkB wf step.onFailure = true) :
    match stepFlow wf step sr e1 i with
    | .inl (.exn _ _) => False
    | .inl (.notFound _) => False
    | .inl (.outOfFuel _ _) => False
    | _ => True := by
  unfold stepFlow
  by_cases hstop : sr.status = .failed ∧ step.stopOnError
  · rw [if_pos hstop]
    trivial
  · rw [if_neg hstop]
    obtain ⟨o, ho⟩ := loopDecide_ok wf step sr e1.steps hloop
    rw [ho]
    match o with
    | some j => trivial
    | none =>
      obtain ⟨j2, hj2⟩ := navDecide_ok wf step sr i hsucc hfail
      rw [hj2]
      match maxIterTruthy wf.maxIterations with
      | some n =>
        by_cases hcap : countName e1.steps step.name ≥ n
        · simp only []
          rw [if_pos hcap]
          trivial
        · simp only []
          rw [if_neg hcap]
          trivial
      | none => trivial

lemma validTargets_of_mem {V : Type} (wf : Workflow V) (step : Step V)
    (hv : validTargetsB wf = true) (hm : step ∈ wf.steps) :
    targetOkB wf step.loopTo = true ∧ targetOkB wf step.onSuccess = true ∧
    targetOkB wf step.onFailure = true := by
  have h := List.all_eq_true.mp hv step hm
  simp only [Bool.and_eq_true] at h
  exact ⟨h.1.1, h.1.2, h.2⟩

lemma runSteps_no_exn {V : Type} (env : Env V) (wf : Workflow V)
    (hv : validTargetsB wf = true) :
    ∀ (fuel i : Nat) (e : Execution V) (tr : Trace),
      (match (runSteps env wf fuel i e tr).1 with
       | .exn _ _ => False
       | .notFound _ => False
       | _ => True) := by
  intro fuel
  induction fuel with
  | zero =>
    intro i e tr
    simp [runSteps]
  | succ n ih =>
    intro i e tr
    rw [runSteps]
    match hstep : wf.steps[i]? with
    | none => trivial
    | some step =>
      have hmem : step ∈ wf.steps := by
        obtain ⟨hlt, he⟩ := List.getElem?_eq_some.mp hstep
        exact he ▸ List.getElem_mem hlt
      obtain ⟨hloop, hsucc, hfail⟩ := validTargets_of_mem wf step hv hmem
      simp only []
      by_cases hc : (match step.condition with
                     | some c => !c e.context
                     | none => false) = true
      · rw [if_pos hc]
        exact ih (i + 1) e tr
      · rw [if_neg hc]
        match hE : executeStep env step e.input e.context tr with
        | (sr, tr1) =>
          simp only []
          have hsf := stepFlow_no_exn wf step sr (recordStep env e sr) i
            hloop hsucc hfail
          match hflow : stepFlow wf step sr (recordStep env e sr) i with
          | .inl out =>
            rw [hflow] at hsf
            simp only []
            cases out with
            | done e2 => trivial
            | exn e2 m => exact hsf.elim
            | notFound m => exact hsf.elim
            | outOfFuel e2 p => exact hsf.elim
          | .inr j => exact ih j (recordStep env e sr) tr1

/-- C10: for every dispatch oracle — in particular oracles whose every
agent dispatch fails and validators that reject — a run of execute on a
registered workflow whose loop_to / onSuccess / onFailure targets all
exist never surfaces a thrown outcome: dispatch errors and validator
rejections are recorded as failed StepResults inside the run, and the
thrown outcomes are reachable only from an unknown workflow name or a
missing branch target. -/
theorem execute_throws_only_config_c10 {V : Type} (env : Env V)
    (workflows : List (String × Workflow V)) (fuel : Nat)
    (name : String) (input initCtx : V) (wf : Workflow V)
    (hwf : workflows.lookup name = some wf)
    (hv : validTargetsB wf = true) :
    match (WorkflowEngine.execute env workflows fuel name input initCtx).1 with
    | .exn _ _ => False
    | .notFound _ => False
    | _ => True := by
  unfold WorkflowEngine.execute
  rw [hwf]
  exact runSteps_no_exn env wf hv fuel 0 _ {}

/-- The dispatch oracle that always fails, spreading contexts by left
projection: used to observe runs whose every agent dispatch errors. -/
def envFailStr : Env String :=
  { dispatch := fun _ _ _ => .error "boom",
    merge := fun a _ => a,
    wrapOutput := fun x => x }

/-- A dispatch oracle that always succeeds. -/
def envOkStr : Env String :=
  { dispatch := fun k _ _ => .ok ("r" ++ toString k),
    merge := fun a _ => a,
    wrapOutput := fun x => x }

/-- A two-step workflow whose first step branches to the second on
failure; all targets exist. -/
def wfC10 : Workflow String :=
  { steps := [{ name := "a", agent := .named "x", onFailure := some "b" },
              { name := "b" }] }

theorem execute_throws_only_config_c10_witness :
    match (WorkflowEngine.execute envFailStr [("w", wfC10)] 10 "w"
        "in" "c0").1 with
    | .exn _ _ => False
    | .notFound _ => False
    | _ => True :=
  execute_throws_only_config_c10 envFailStr [("w", wfC10)] 10 "w" "in"
    "c0" wfC10 (by rfl) (by rfl)

/-! ## C1 — the per-step iteration cap -/

lemma countName_append {V : Type} (l : List (StepResult V))
    (sr : StepResult V) (nm : String) :
    countName (l ++ [sr]) nm =
      countName l nm + (if sr.name == nm then 1 else 0) := by
  unfold countName
  rw [List.filter_append, List.length_append]
  congr 1
  by_cases h : (sr.name == nm) = true
  · simp [h]
  · simp [h]

lemma recordStep_count {V : Type} (env : Env V) (e : Execution V)
    (sr : StepResult V) (nm : String) :
    countName (recordStep env e sr).steps nm =
      countName e.steps nm + (if sr.name == nm then 1 else 0) :=
  countName_append e.steps sr nm

/-- When a cap is in force, the loop decision jumps only while the
recorded count of the looping step is still below the cap. -/
lemma loopDecide_some_count {V : Type} (wf : Workflow V) (step : Step V)
    (sr : StepResult V) (steps1 : List (StepResult V)) (n j : Nat)
    (hmx : maxIterTruthy wf.maxIterations = some n)
    (hld : loopDecide wf step sr steps1 = .ok (some j)) :
    countName steps1 step.name < n := by
  unfold loopDecide at hld
  match hlt : step.loopTo with
  | none =>
    rw [hlt] at hld
    simp at hld
  | some t =>
    rw [hlt] at hld
    simp only [] at hld
    by_cases hs : sr.status ≠ .failed
    · rw [if_pos hs] at hld
      match hfi : findStepIndex wf t with
      | .error m =>
        rw [hfi] at hld
        simp at hld
      | .ok j2 =>
        rw [hfi, hmx] at hld
        simp only [] at hld
        by_cases hcnt : countName steps1 step.name < n
        · exact hcnt
        · rw [if_neg hcnt] at hld
          simp at hld
    · rw [if_neg hs] at hld
      simp at hld

/-- When a cap is in force, any jump of the flow control is taken with
the recorded count of the current step below the cap. -/
lemma stepFlow_jump_count {V : Type} (wf : Workflow V) (step : Step V)
    (sr : StepResult V) (e1 : Execution V) (i : Nat) (n j : Nat)
    (hmx : maxIterTruthy wf.maxIterations = some n)
    (hj : stepFlow wf step sr e1 i = .inr j) :
    countName e1.steps step.name < n := by
  unfold stepFlow at hj
  by_cases hstop : sr.status = .failed ∧ step.stopOnError
  · rw [if_pos hstop] at hj
    simp at hj
  · rw [if_neg hstop] at hj
    match hld : loopDecide wf step sr e1.steps with
    | .error m =>
      rw [hld] at hj
      simp at hj
    | .ok (some j2) =>
      exact loopDecide_some_count wf step sr e1.steps n j2 hmx hld
    | .ok none =>
      rw [hld] at hj
      match hnav : navDecide wf step sr i with
      | .error m =>
        rw [hnav] at hj
        simp at hj
      | .ok i2 =>
        rw [hnav, hmx] at hj
        simp only [] at hj
        by_cases hcap : countName e1.steps step.name ≥ n
        · rw [if_pos hcap] at hj
          simp at hj
        · omega

/-- A terminal verdict of the flow control is a done or an exn outcome
carrying an execution with exactly the recorded steps of e1. -/
lemma stepFlow_inl_steps {V : Type} (wf : Workflow V) (step : Step V)
    (sr : StepResult V) (e1 : Execution V) (i : Nat)
    (out : RunOutcome V) (hj : stepFlow wf step sr e1 i = .inl out) :
    (∃ e2, out = .done e2 ∧ e2.steps = e1.steps) ∨
    (∃ e2 m, out = .exn e2 m ∧ e2.steps = e1.steps) := by
  unfold stepFlow at hj
  by_cases hstop : sr.status = .failed ∧ step.stopOnError
  · rw [if_pos hstop] at hj
    injection hj with h2
    exact Or.inl ⟨_, h2.symm, by rw [finishExec_steps, setStatus_steps]⟩
  · rw [if_neg hstop] at hj
    match hld : loopDecide wf step sr e1.steps with
    | .error m =>
      rw [hld] at hj
      injection hj with h2
      exact Or.inr ⟨_, _, h2.symm, setStatus_steps e1 .error⟩
    | .ok (some j2) =>
      rw [hld] at hj
      simp at hj
    | .ok none =>
      rw [hld] at hj
      match hnav : navDecide wf step sr i with
      | .error m =>
        rw [hnav] at hj
        injection hj with h2
        exact Or.inr ⟨_, _, h2.symm, setStatus_steps e1 .error⟩
      | .ok i2 =>
        rw [hnav] at hj
        match hmx : maxIterTruthy wf.maxIterations with
        | some n =>
          rw [hmx] at hj
          simp only [] at hj
          by_cases hcap : countName e1.steps step.name ≥ n
          · rw [if_pos hcap] at hj
            injection hj with h2
            exact Or.inl ⟨_, h2.symm, finishExec_steps e1⟩
          · rw [if_neg hcap] at hj
            simp at hj
        | none =>
          rw [hmx] at hj
          simp at hj

lemma runSteps_count {V : Type} (env : Env V) (wf : Workflow V) (n : Nat)
    (hmx : maxIterTruthy wf.maxIterations = some n) :
    ∀ (fuel i : Nat) (e : Execution V) (tr : Trace),
      (∀ nm, countName e.steps nm < n) →
      (match (runSteps env wf fuel i e tr).1 with
       | .done e2 => ∀ nm, countName e2.steps nm ≤ n
       | .exn e2 _ => ∀ nm, countName e2.steps nm ≤ n
       | .notFound _ => True
       | .outOfFuel e2 _ => ∀ nm, countName e2.steps nm ≤ n) := by
  intro fuel
  induction fuel with
  | zero =>
    intro i e tr hcnt
    simp only [runSteps]
    intro nm
    exact le_of_lt (hcnt nm)
  | succ nf ih =>
    intro i e tr hcnt
    rw [runSteps]
    match hstep : wf.steps[i]? with
    | none =>
      simp only []
      rw [finishExec_steps]
      intro nm
      exact le_of_lt (hcnt nm)
    | some step =>
      simp only []
      by_cases hc : (match step.condition with
                     | some c => !c e.context
                     | none => false) = true
      · rw [if_pos hc]
        exact ih (i + 1) e tr hcnt
      · rw [if_neg hc]
        match hE : executeStep env step e.input e.context tr with
        | (sr, tr1) =>
          simp only []
          have hname : sr.name = step.name := by
            have := executeStep_name env step e.input e.context tr
            rw [hE] at this
            exact this
          have hbound : ∀ nm, countName (recordStep env e sr).steps nm ≤
              countName e.steps nm + 1 := by
            intro nm
            rw [recordStep_count]
            split <;> omega
          match hflow : stepFlow wf step sr (recordStep env e sr) i with
          | .inl out =>
            have hst := stepFlow_inl_steps wf step sr (recordStep env e sr)
              i out hflow
            simp only []
            rcases hst with ⟨e2, rfl, hsteq⟩ | ⟨e2, m, rfl, hsteq⟩
            · intro nm
              rw [hsteq]
              exact le_trans (hbound nm) (by have := hcnt nm; omega)
            · intro nm
              rw [hsteq]
              exact le_trans (hbound nm) (by have := hcnt nm; omega)
          | .inr j =>
            have hjump := stepFlow_jump_count wf step sr
              (recordStep env e sr) i n j hmx hflow
            refine ih j (recordStep env e sr) tr1 ?_
            intro nm
            have h2 := hjump
            rw [recordStep_count] at h2
            rw [recordStep_count]
            by_cases hnm : nm = step.name
            · rw [hnm]
              exact h2
            · have hne2 : (sr.name == nm) = false := by
                rw [hname]
                exact beq_eq_false_iff_ne.mpr (fun h => hnm h.symm)
              simp only [hne2, Bool.false_eq_true, if_false]
              have := hcnt nm
              omega

/-- C1 amended: with maxIterations = N at least 1, every step name is
recorded at most N times over the whole run — once the current step
reaches N recorded results the engine breaks out of the entire step
loop, so the looping step never exceeds N executions (and the remaining
steps are skipped rather than run, as the counterexample shows). -/
theorem workflow_iteration_cap_c1 {V : Type} (env : Env V)
    (workflows : List (String × Workflow V)) (fuel : Nat)
    (name : String) (input initCtx : V) (wf : Workflow V) (N : Nat)
    (hwf : workflows.lookup name = some wf)
    (hmax : wf.maxIterations = some N) (hN : 1 ≤ N) :
    match (WorkflowEngine.execute env workflows fuel name input initCtx).1 with
    | .done e => ∀ nm, countName e.steps nm ≤ N
    | .exn e _ => ∀ nm, countName e.steps nm ≤ N
    | .notFound _ => True
    | .outOfFuel e _ => ∀ nm, countName e.steps nm ≤ N := by
  have hmx : maxIterTruthy wf.maxIterations = some N := by
    rw [hmax]
    unfold maxIterTruthy
    simp only []
    rw [if_neg (by omega)]
  unfold WorkflowEngine.execute
  rw [hwf]
  exact runSteps_count env wf N hmx fuel 0 _ {}
    (by intro nm; simp [countName]; omega)

/-- The looping workflow of the C1 scenario: step a loops to itself, a
later step b follows, and the cap is 2. -/
def wfLoopAB : Workflow String :=
  { steps := [{ name := "a", loopTo := some "a" }, { name := "b" }],
    maxIterations := some 2 }

/-- The recorded step names and final status of a finished run. -/
def runObserved {V : Type} (o : RunOutcome V) :
    Option (List String × ExecStatus) :=
  match o with
  | .done e => some (e.steps.map (fun s => s.name), e.status)
  | _ => none

/-- C1 counterexample: with maxIterations 2, the looping step a runs
twice and then the engine breaks out of the whole step loop — the later
step b never runs and the execution completes with only the two a
results, refuting that execution continues with the steps after the
loop. -/
theorem workflow_iteration_cap_c1_counterexample :
    runObserved (WorkflowEngine.execute envOkStr [("w", wfLoopAB)] 10 "w"
      "in" "c0").1 = some (["a", "a"], .completed) := by rfl

theorem workflow_iteration_cap_c1_witness :
    match (WorkflowEngine.execute envOkStr [("w", wfLoopAB)] 10 "w" "in"
        "c0").1 with
    | .done e => ∀ nm, countName e.steps nm ≤ 2
    | .exn e _ => ∀ nm, countName e.steps nm ≤ 2
    | .notFound _ => True
    | .outOfFuel e _ => ∀ nm, countName e.steps nm ≤ 2 :=
  workflow_iteration_cap_c1 envOkStr [("w", wfLoopAB)] 10 "w" "in" "c0"
    wfLoopAB 2 (by rfl) (by rfl) (by omega)

/-! ## C2 — the retry loop makes a single additional attempt -/

/-- The step of the C2 scenario: a named agent with retry policy
attempts 3, delay 100, backoffFactor 2. -/
def stepC2 : Step String :=
  { name := "s", agent := .named "g",
    retry := some { attempts := 3, delay := some 100,
                    backoffFactor := some 2 } }

/-- C2: against an always-failing dispatch oracle, the step with retry
policy (attempts 3, delay 100, backoff 2) performs exactly one
additional attempt — two dispatch calls in total — awaiting a single
backoff delay of 100, and records that attempt's own failure message;
the loop never reaches attempts 2 and 3, their delays 200 and 400 are
never awaited, and the failed-after-3-retries message is never built,
because the re-run executeStep settles without rejecting and the loop
body returns on its first iteration. -/
theorem retry_single_attempt_c2 :
    (executeStep envFailStr stepC2 "in" "c0" {}).1.status = .failed ∧
    (executeStep envFailStr stepC2 "in" "c0" {}).1.error = some "boom" ∧
    (executeStep envFailStr stepC2 "in" "c0" {}).2.calls = 2 ∧
    (executeStep envFailStr stepC2 "in" "c0" {}).2.delays = [100] :=
  ⟨rfl, rfl, rfl, rfl⟩

end Lexical
